import Mathlib

/-!
Verification development for the ESB sales-report scraper
(`src/scraper/scrape_esb.py`).

The Python module is shallowly embedded: pure helpers become Lean
functions, the network and the HTML parser (external libraries
`requests` and BeautifulSoup) are abstracted as environments that
supply the responses and the parsed views the code consumes, and
Python exception flow is modelled with `Except`.
-/

set_option maxHeartbeats 1000000

namespace ESB

/-! ## Dates

`datetime.datetime` values as the scraper uses them: only the calendar
components matter (times are always midnight). -/

/-- A proleptic-Gregorian calendar date, the value of a parsed
`datetime.strptime(_, "%Y-%m-%d")`. -/
structure Date where
  year : Nat
  month : Nat
  day : Nat
  deriving DecidableEq, Repr

@[simp] lemma Date.year_mk (y m dd : Nat) : (Date.mk y m dd).year = y := rfl

@[simp] lemma Date.month_mk (y m dd : Nat) : (Date.mk y m dd).month = m := rfl

@[simp] lemma Date.day_mk (y m dd : Nat) : (Date.mk y m dd).day = dd := rfl

/-- Gregorian leap-year test (as in Python's `calendar.isleap`). -/
def isLeap (y : Nat) : Bool :=
  (y % 4 == 0 && y % 100 != 0) || y % 400 == 0

/-- Length of month `m` of year `y`. -/
def daysInMonth (y m : Nat) : Nat :=
  if m = 2 then (if isLeap y then 29 else 28)
  else if m = 4 ∨ m = 6 ∨ m = 9 ∨ m = 11 then 30
  else 31

/-- The dates `datetime` can represent (year ≥ 1, month and day in range). -/
def Date.Valid (d : Date) : Prop :=
  1 ≤ d.year ∧ 1 ≤ d.month ∧ d.month ≤ 12 ∧ 1 ≤ d.day ∧
    d.day ≤ daysInMonth d.year d.month

instance (d : Date) : Decidable d.Valid := by
  unfold Date.Valid; exact inferInstance

/-- `datetime` comparison `a <= b`: lexicographic on (year, month, day). -/
def Date.le (a b : Date) : Prop :=
  a.year < b.year ∨
    (a.year = b.year ∧ (a.month < b.month ∨ (a.month = b.month ∧ a.day ≤ b.day)))

/-- `datetime` comparison `a < b`. -/
def Date.lt (a b : Date) : Prop :=
  a.year < b.year ∨
    (a.year = b.year ∧ (a.month < b.month ∨ (a.month = b.month ∧ a.day < b.day)))

instance (a b : Date) : Decidable (Date.le a b) := by
  unfold Date.le; exact inferInstance

instance (a b : Date) : Decidable (Date.lt a b) := by
  unfold Date.lt; exact inferInstance

/-- The next calendar day (the `+ 1 day` the spec's contiguity talks about). -/
def Date.next (d : Date) : Date :=
  if d.day < daysInMonth d.year d.month then ⟨d.year, d.month, d.day + 1⟩
  else if d.month < 12 then ⟨d.year, d.month + 1, 1⟩
  else ⟨d.year + 1, 1, 1⟩

/-- The previous calendar day (`days=-1` step of
`relativedelta(months=1, days=-1)`). -/
def Date.prev (d : Date) : Date :=
  if 1 < d.day then ⟨d.year, d.month, d.day - 1⟩
  else if 1 < d.month then ⟨d.year, d.month - 1, daysInMonth d.year (d.month - 1)⟩
  else ⟨d.year - 1, 12, 31⟩

/-- `d + relativedelta(months=1)`: advance the month, rolling the year
over and clamping the day to the length of the target month, exactly as
dateutil normalises. -/
def Date.addMonth (d : Date) : Date :=
  if d.month = 12 then ⟨d.year + 1, 1, min d.day (daysInMonth (d.year + 1) 1)⟩
  else ⟨d.year, d.month + 1, min d.day (daysInMonth d.year (d.month + 1))⟩

/-- Months elapsed since year 0, the measure the month loop decreases. -/
def monthIdx (d : Date) : Nat := 12 * d.year + d.month

/-- Order-embedding of in-range dates into `Nat` (month ≤ 15, day ≤ 31
keep the mixed radix faithful); used only in proofs. -/
def Date.key (d : Date) : Nat := 512 * d.year + 32 * d.month + d.day

/-- Zero-padded two-digit field of strftime. -/
def pad2 (n : Nat) : String := if n < 10 then "0" ++ toString n else toString n

/-- Zero-padded four-digit year field of strftime. -/
def pad4 (n : Nat) : String :=
  if n < 10 then "000" ++ toString n
  else if n < 100 then "00" ++ toString n
  else if n < 1000 then "0" ++ toString n
  else toString n

/-- `strftime("%d-%m-%Y")`. -/
def fmtDMY (d : Date) : String := pad2 d.day ++ "-" ++ pad2 d.month ++ "-" ++ pad4 d.year

/-- `strftime("%Y-%m")`. -/
def fmtYM (d : Date) : String := pad4 d.year ++ "-" ++ pad2 d.month

/-- One dictionary yielded by `generate_monthly_ranges`; `ending` models
the `"end"` key (a Lean keyword). -/
structure DateRange where
  start : String
  ending : String
  label : String
  deriving DecidableEq, Repr

/-- The while-loop of `generate_monthly_ranges` at the level of dates:
each iteration yields the window
`(current, min(current + relativedelta(months=1, days=-1), end_date))`
and advances `current` by one calendar month.  The loop is driven by
fuel; each iteration advances `monthIdx` by exactly one, so
`monthIdx e + 1 - monthIdx s` steps reproduce the Python loop exactly. -/
def rangesAuxD (e : Date) : Nat → Date → List (Date × Date)
  | 0, _ => []
  | fuel + 1, cur =>
    if Date.le cur e then
      let eom := (Date.addMonth cur).prev
      let eomC := if Date.lt e eom then e else eom
      (cur, eomC) :: rangesAuxD e fuel (Date.addMonth cur)
    else []

/-- The (date-level) windows produced for `[s, e]`. -/
def monthlyWindows (s e : Date) : List (Date × Date) :=
  rangesAuxD e (monthIdx e + 1 - monthIdx s) s

/-- `generate_monthly_ranges(start_date_str, end_date_str)` after the two
`strptime` calls: the yielded dictionaries, with the strftime-formatted
fields of the source. -/
def generate_monthly_ranges (s e : Date) : List DateRange :=
  (monthlyWindows s e).map fun w =>
    { start := fmtDMY w.1, ending := fmtDMY w.2, label := fmtYM w.1 }

/-! ### Calendar arithmetic lemmas -/

lemma daysInMonth_bounds (y m : Nat) :
    28 ≤ daysInMonth y m ∧ daysInMonth y m ≤ 31 := by
  unfold daysInMonth
  split
  · split <;> omega
  · split <;> omega

lemma Date.le_key {a b : Date} (ha : a.Valid) (hb : b.Valid) :
    Date.le a b ↔ a.key ≤ b.key := by
  obtain ⟨-, -, ham, -, had⟩ := ha
  obtain ⟨-, -, hbm, -, hbd⟩ := hb
  have h1 := daysInMonth_bounds a.year a.month
  have h2 := daysInMonth_bounds b.year b.month
  unfold Date.le Date.key
  omega

lemma Date.lt_key {a b : Date} (ha : a.Valid) (hb : b.Valid) :
    Date.lt a b ↔ a.key < b.key := by
  obtain ⟨-, -, ham, -, had⟩ := ha
  obtain ⟨-, -, hbm, -, hbd⟩ := hb
  have h1 := daysInMonth_bounds a.year a.month
  have h2 := daysInMonth_bounds b.year b.month
  unfold Date.lt Date.key
  omega

lemma monthIdx_le_of_le {a b : Date} (ha : a.Valid) (hb : b.Valid)
    (h : Date.le a b) : monthIdx a ≤ monthIdx b := by
  obtain ⟨-, -, ham, -, -⟩ := ha
  obtain ⟨-, hbm, -, -, -⟩ := hb
  unfold Date.le at h
  unfold monthIdx
  omega

lemma addMonth_valid {d : Date} (h : d.Valid) : d.addMonth.Valid := by
  obtain ⟨y, m, dd⟩ := d
  simp only [Date.Valid, Date.year_mk, Date.month_mk, Date.day_mk] at h
  obtain ⟨hy, hm1, hm2, hd1, hd2⟩ := h
  have h1 := daysInMonth_bounds (y + 1) 1
  have h2 := daysInMonth_bounds y (m + 1)
  simp only [Date.addMonth, Date.year_mk, Date.month_mk, Date.day_mk]
  split <;> simp only [Date.Valid, Date.year_mk, Date.month_mk, Date.day_mk] <;> omega

lemma monthIdx_addMonth {d : Date} (h : d.Valid) :
    monthIdx d.addMonth = monthIdx d + 1 := by
  obtain ⟨y, m, dd⟩ := d
  simp only [Date.Valid, Date.year_mk, Date.month_mk, Date.day_mk] at h
  obtain ⟨hy, hm1, hm2, hd1, hd2⟩ := h
  simp only [Date.addMonth, Date.year_mk, Date.month_mk, Date.day_mk]
  split <;> simp only [monthIdx, Date.year_mk, Date.month_mk, Date.day_mk] <;> omega

lemma addMonth_key {d : Date} (h : d.Valid) : d.key < d.addMonth.key := by
  obtain ⟨y, m, dd⟩ := d
  simp only [Date.Valid, Date.year_mk, Date.month_mk, Date.day_mk] at h
  obtain ⟨hy, hm1, hm2, hd1, hd2⟩ := h
  have hb := daysInMonth_bounds y m
  simp only [Date.addMonth, Date.year_mk, Date.month_mk, Date.day_mk]
  split <;> simp only [Date.key, Date.year_mk, Date.month_mk, Date.day_mk] <;> omega

lemma next_key {d : Date} (h : d.Valid) : d.key < d.next.key := by
  obtain ⟨y, m, dd⟩ := d
  simp only [Date.Valid, Date.year_mk, Date.month_mk, Date.day_mk] at h
  obtain ⟨hy, hm1, hm2, hd1, hd2⟩ := h
  have hb0 := daysInMonth_bounds y m
  simp only [Date.next, Date.year_mk, Date.month_mk, Date.day_mk]
  split
  · simp only [Date.key, Date.year_mk, Date.month_mk, Date.day_mk]; omega
  · split <;> simp only [Date.key, Date.year_mk, Date.month_mk, Date.day_mk] <;> omega

lemma next_valid {d : Date} (h : d.Valid) : d.next.Valid := by
  obtain ⟨y, m, dd⟩ := d
  simp only [Date.Valid, Date.year_mk, Date.month_mk, Date.day_mk] at h
  obtain ⟨hy, hm1, hm2, hd1, hd2⟩ := h
  have h1 := daysInMonth_bounds y (m + 1)
  have h2 := daysInMonth_bounds (y + 1) 1
  simp only [Date.next, Date.year_mk, Date.month_mk, Date.day_mk]
  split
  · simp only [Date.Valid, Date.year_mk, Date.month_mk, Date.day_mk]; omega
  · split <;> simp only [Date.Valid, Date.year_mk, Date.month_mk, Date.day_mk] <;> omega

lemma prev_key {d : Date} (h : d.Valid) : d.prev.key < d.key := by
  obtain ⟨y, m, dd⟩ := d
  simp only [Date.Valid, Date.year_mk, Date.month_mk, Date.day_mk] at h
  obtain ⟨hy, hm1, hm2, hd1, hd2⟩ := h
  have hb := daysInMonth_bounds y (m - 1)
  have hb0 := daysInMonth_bounds y m
  simp only [Date.prev, Date.year_mk, Date.month_mk, Date.day_mk]
  split
  · simp only [Date.key, Date.year_mk, Date.month_mk, Date.day_mk]; omega
  · split <;> simp only [Date.key, Date.year_mk, Date.month_mk, Date.day_mk] <;> omega

lemma prev_valid {d : Date} (h : d.Valid) (h1 : d.month = 1 → d.day = 1 → 2 ≤ d.year) :
    d.prev.Valid := by
  obtain ⟨y, m, dd⟩ := d
  simp only [Date.Valid, Date.year_mk, Date.month_mk, Date.day_mk] at h
  obtain ⟨hy, hm1, hm2, hd1, hd2⟩ := h
  simp only [Date.month_mk, Date.day_mk, Date.year_mk] at h1
  have hb := daysInMonth_bounds y (m - 1)
  have hb0 := daysInMonth_bounds y m
  have h31 : daysInMonth (y - 1) 12 = 31 := by simp [daysInMonth]
  simp only [Date.prev, Date.year_mk, Date.month_mk, Date.day_mk]
  split
  · simp only [Date.Valid, Date.year_mk, Date.month_mk, Date.day_mk]; omega
  · split <;> simp only [Date.Valid, Date.year_mk, Date.month_mk, Date.day_mk] <;> omega

lemma prev_next {d : Date} (h : d.Valid) : d.prev.next = d := by
  obtain ⟨y, m, dd⟩ := d
  simp only [Date.Valid, Date.year_mk, Date.month_mk, Date.day_mk] at h
  obtain ⟨hy, hm1, hm2, hd1, hd2⟩ := h
  have hb0 := daysInMonth_bounds y m
  have hb1 := daysInMonth_bounds y (m - 1)
  have h31 : daysInMonth (y - 1) 12 = 31 := by simp [daysInMonth]
  simp only [Date.prev, Date.year_mk, Date.month_mk, Date.day_mk]
  split
  · simp only [Date.next, Date.year_mk, Date.month_mk, Date.day_mk]
    split
    · simp only [Date.mk.injEq, true_and, and_true]; omega
    · split <;> simp only [Date.mk.injEq, true_and, and_true] <;> omega
  · split
    · simp only [Date.next, Date.year_mk, Date.month_mk, Date.day_mk]
      split
      · simp only [Date.mk.injEq, true_and, and_true]; omega
      · split <;> simp only [Date.mk.injEq, true_and, and_true] <;> omega
    · simp only [Date.next, h31, Date.year_mk, Date.month_mk, Date.day_mk]
      split
      · simp only [Date.mk.injEq, true_and, and_true]; omega
      · split <;> simp only [Date.mk.injEq, true_and, and_true] <;> omega

lemma addMonth_prev_valid {d : Date} (h : d.Valid) : d.addMonth.prev.Valid := by
  refine prev_valid (addMonth_valid h) ?_
  intro hm _
  obtain ⟨y, m, dd⟩ := d
  simp only [Date.Valid, Date.year_mk, Date.month_mk, Date.day_mk] at h
  obtain ⟨hy, hm1, hm2, hd1, hd2⟩ := h
  by_cases h12 : m = 12
  · simp [Date.addMonth, h12] at hm ⊢
    omega
  · simp [Date.addMonth, h12] at hm ⊢
    omega

lemma next_le_of_lt {a b : Date} (ha : a.Valid) (hb : b.Valid)
    (h : a.key < b.key) : a.next.key ≤ b.key := by
  obtain ⟨ya, ma, da⟩ := a
  obtain ⟨yb, mb, db⟩ := b
  simp only [Date.Valid, Date.year_mk, Date.month_mk, Date.day_mk] at ha hb
  obtain ⟨hay, ham1, ham2, had1, had2⟩ := ha
  obtain ⟨hby, hbm1, hbm2, hbd1, hbd2⟩ := hb
  have hba := daysInMonth_bounds ya ma
  have hbb := daysInMonth_bounds yb mb
  simp only [Date.key, Date.year_mk, Date.month_mk, Date.day_mk] at h ⊢
  by_cases hy : yb = ya
  · by_cases hm : mb = ma
    · rw [hy, hm] at hbd2
      simp only [Date.next, Date.year_mk, Date.month_mk, Date.day_mk]
      split
      · simp only [Date.key, Date.year_mk, Date.month_mk, Date.day_mk]; omega
      · split <;> simp only [Date.key, Date.year_mk, Date.month_mk, Date.day_mk] <;> omega
    · simp only [Date.next, Date.year_mk, Date.month_mk, Date.day_mk]
      split
      · simp only [Date.key, Date.year_mk, Date.month_mk, Date.day_mk]; omega
      · split <;> simp only [Date.key, Date.year_mk, Date.month_mk, Date.day_mk] <;> omega
  · simp only [Date.next, Date.year_mk, Date.month_mk, Date.day_mk]
    split
    · simp only [Date.key, Date.year_mk, Date.month_mk, Date.day_mk]; omega
    · split <;> simp only [Date.key, Date.year_mk, Date.month_mk, Date.day_mk] <;> omega

lemma key_le_addMonth_prev {d : Date} (h : d.Valid) :
    d.key ≤ d.addMonth.prev.key := by
  obtain ⟨y, m, dd⟩ := d
  simp only [Date.Valid, Date.year_mk, Date.month_mk, Date.day_mk] at h
  obtain ⟨hy, hm1, hm2, hd1, hd2⟩ := h
  have hb0 := daysInMonth_bounds y m
  have hb1 := daysInMonth_bounds y (m + 1)
  have h31 : daysInMonth (y + 1) 1 = 31 := by simp [daysInMonth]
  have h31' : daysInMonth (y + 1 - 1) 12 = 31 := by simp [daysInMonth]
  have hbm : daysInMonth y (m + 1 - 1) = daysInMonth y m := by
    simp only [Nat.add_sub_cancel]
  have hb2 := daysInMonth_bounds (y + 1) (1 - 1)
  simp only [Date.addMonth, Date.year_mk, Date.month_mk, Date.day_mk]
  split
  · simp only [Date.prev, h31, Date.year_mk, Date.month_mk, Date.day_mk]
    split
    · simp only [Date.key, Date.year_mk, Date.month_mk, Date.day_mk]; omega
    · split <;> simp only [Date.key, h31', Date.year_mk, Date.month_mk, Date.day_mk] <;> omega
  · simp only [Date.prev, Date.year_mk, Date.month_mk, Date.day_mk]
    split
    · simp only [Date.key, Date.year_mk, Date.month_mk, Date.day_mk]; omega
    · split <;> simp only [Date.key, hbm, Date.year_mk, Date.month_mk, Date.day_mk] <;> omega



/-! ### Properties of the month-window loop -/

lemma rangesAuxD_neg {e : Date} (fuel : Nat) {cur : Date} (h : ¬ Date.le cur e) :
    rangesAuxD e fuel cur = [] := by
  cases fuel <;> simp [rangesAuxD, h]

lemma rangesAuxD_succ_pos {e : Date} {fuel : Nat} {cur : Date} (h : Date.le cur e) :
    rangesAuxD e (fuel + 1) cur =
      (cur, if Date.lt e (Date.addMonth cur).prev then e else (Date.addMonth cur).prev) ::
        rangesAuxD e fuel (Date.addMonth cur) := by
  simp [rangesAuxD, h]

/-- Every produced window is valid, sits after the loop variable, is
well-ordered, and never reaches past `e`. -/
lemma rangesAuxD_bounds {e : Date} (he : e.Valid) (fuel : Nat) :
    ∀ cur : Date, cur.Valid →
      ∀ w ∈ rangesAuxD e fuel cur,
        w.1.Valid ∧ w.2.Valid ∧ cur.key ≤ w.1.key ∧ w.1.key ≤ w.2.key ∧ w.2.key ≤ e.key := by
  induction fuel with
  | zero =>
    intro cur _ w hw
    simp [rangesAuxD] at hw
  | succ fuel ih =>
    intro cur hc w hw
    by_cases hle : Date.le cur e
    · rw [rangesAuxD_succ_pos hle] at hw
      rcases List.mem_cons.mp hw with rfl | hmem
      · refine ⟨hc, ?_, le_refl _, ?_, ?_⟩
        · split
          · exact he
          · exact addMonth_prev_valid hc
        · split
          · exact (Date.le_key hc he).mp hle
          · exact key_le_addMonth_prev hc
        · split
          · exact le_refl _
          · rename_i hnlt
            rw [Date.lt_key he (addMonth_prev_valid hc)] at hnlt
            show (Date.addMonth cur).prev.key ≤ e.key
            omega
      · have h1 := ih (Date.addMonth cur) (addMonth_valid hc) w hmem
        have h2 := addMonth_key hc
        exact ⟨h1.1, h1.2.1, by omega, h1.2.2.2.1, h1.2.2.2.2⟩
    · rw [rangesAuxD_neg _ hle] at hw
      simp at hw

/-- Consecutive windows are contiguous: the next window starts the day
after the previous one ends. -/
lemma rangesAuxD_chain {e : Date} (he : e.Valid) (fuel : Nat) :
    ∀ cur : Date, cur.Valid →
      List.Chain' (fun p q : Date × Date => q.1 = p.2.next) (rangesAuxD e fuel cur) := by
  induction fuel with
  | zero => intro cur _; simp [rangesAuxD]
  | succ fuel ih =>
    intro cur hc
    by_cases hle : Date.le cur e
    · rw [rangesAuxD_succ_pos hle]
      refine List.chain'_cons'.mpr ⟨?_, ih _ (addMonth_valid hc)⟩
      intro b hb
      by_cases hle2 : Date.le (Date.addMonth cur) e
      · cases fuel with
        | zero => simp [rangesAuxD] at hb
        | succ f =>
          rw [rangesAuxD_succ_pos hle2] at hb
          simp only [List.head?_cons, Option.mem_def, Option.some.injEq] at hb
          subst hb
          have hnc : ¬ Date.lt e (Date.addMonth cur).prev := by
            intro hcl
            rw [Date.lt_key he (addMonth_prev_valid hc)] at hcl
            have h1 := prev_key (addMonth_valid hc)
            have h2 := (Date.le_key (addMonth_valid hc) he).mp hle2
            omega
          rw [if_neg hnc]
          exact (prev_next (addMonth_valid hc)).symm
      · rw [rangesAuxD_neg _ hle2] at hb
        simp at hb
    · rw [rangesAuxD_neg _ hle]
      simp

/-- With enough fuel the windows cover `[cur, e]` exactly. -/
lemma rangesAuxD_cover {e : Date} (he : e.Valid) (fuel : Nat) :
    ∀ cur : Date, cur.Valid → monthIdx e < monthIdx cur + fuel → Date.le cur e →
      ∀ x : Date, x.Valid →
        ((cur.key ≤ x.key ∧ x.key ≤ e.key) ↔
          ∃ w ∈ rangesAuxD e fuel cur, w.1.key ≤ x.key ∧ x.key ≤ w.2.key) := by
  induction fuel with
  | zero =>
    intro cur hc hf hle x _
    have := monthIdx_le_of_le hc he hle
    omega
  | succ fuel ih =>
    intro cur hc hf hle x hx
    rw [rangesAuxD_succ_pos hle]
    constructor
    · rintro ⟨hcx, hxe⟩
      by_cases hclamp : Date.lt e (Date.addMonth cur).prev
      · exact ⟨(cur, e), by rw [if_pos hclamp]; exact List.mem_cons_self _ _, hcx, hxe⟩
      · by_cases hxeom : x.key ≤ (Date.addMonth cur).prev.key
        · exact ⟨(cur, (Date.addMonth cur).prev),
            by rw [if_neg hclamp]; exact List.mem_cons_self _ _, hcx, hxeom⟩
        · have hev : (Date.addMonth cur).prev.Valid := addMonth_prev_valid hc
          have hnext : (Date.addMonth cur).prev.next.key ≤ x.key :=
            next_le_of_lt hev hx (by omega)
          have heq : (Date.addMonth cur).prev.next = Date.addMonth cur :=
            prev_next (addMonth_valid hc)
          rw [heq] at hnext
          have hle2 : Date.le (Date.addMonth cur) e := by
            rw [Date.le_key (addMonth_valid hc) he]; omega
          have hf2 : monthIdx e < monthIdx (Date.addMonth cur) + fuel := by
            rw [monthIdx_addMonth hc]; omega
          obtain ⟨w, hwmem, hw⟩ :=
            (ih (Date.addMonth cur) (addMonth_valid hc) hf2 hle2 x hx).mp ⟨hnext, hxe⟩
          exact ⟨w, List.mem_cons_of_mem _ hwmem, hw⟩
    · rintro ⟨w, hwmem, hw1, hw2⟩
      rcases List.mem_cons.mp hwmem with rfl | hmem
      · simp at hw1 hw2
        refine ⟨hw1, ?_⟩
        by_cases hclamp : Date.lt e (Date.addMonth cur).prev
        · rw [if_pos hclamp] at hw2
          exact hw2
        · rw [if_neg hclamp] at hw2
          rw [Date.lt_key he (addMonth_prev_valid hc)] at hclamp
          omega
      · have hb := rangesAuxD_bounds he fuel (Date.addMonth cur) (addMonth_valid hc) w hmem
        have h2 := addMonth_key hc
        exact ⟨by omega, by omega⟩

/-- C3: for valid dates with `start_date <= end_date`,
`generate_monthly_ranges` yields a finite list of windows (formatted from
`monthlyWindows`) such that each window's start is at most its end, each
window's end never exceeds `end_date`, consecutive windows are contiguous
(the next window's start is the previous window's end plus one day), and
the windows cover `[start_date, end_date]` exactly; for
`start_date > end_date` the list is empty. -/
theorem generate_monthly_ranges_spec (s e : Date) (hs : s.Valid) (he : e.Valid) :
    generate_monthly_ranges s e =
      (monthlyWindows s e).map
        (fun w => { start := fmtDMY w.1, ending := fmtDMY w.2, label := fmtYM w.1 })
    ∧ (Date.le s e →
        (∀ w ∈ monthlyWindows s e, Date.le w.1 w.2 ∧ Date.le w.2 e)
        ∧ List.Chain' (fun p q : Date × Date => q.1 = p.2.next) (monthlyWindows s e)
        ∧ (∀ x : Date, x.Valid →
            ((Date.le s x ∧ Date.le x e) ↔
              ∃ w ∈ monthlyWindows s e, Date.le w.1 x ∧ Date.le x w.2)))
    ∧ (Date.lt e s → monthlyWindows s e = []) := by
  refine ⟨rfl, ?_, ?_⟩
  · intro hle
    have hf : monthIdx e < monthIdx s + (monthIdx e + 1 - monthIdx s) := by
      have := monthIdx_le_of_le hs he hle
      omega
    refine ⟨?_, ?_, ?_⟩
    · intro w hw
      have hb := rangesAuxD_bounds he _ s hs w hw
      obtain ⟨hv1, hv2, hks, hk12, hk2e⟩ := hb
      exact ⟨(Date.le_key hv1 hv2).mpr hk12, (Date.le_key hv2 he).mpr hk2e⟩
    · simp only [monthlyWindows]
      exact rangesAuxD_chain he _ s hs
    · intro x hx
      constructor
      · rintro ⟨h1, h2⟩
        obtain ⟨w, hwmem, hw1, hw2⟩ := (rangesAuxD_cover he _ s hs hf hle x hx).mp
          ⟨(Date.le_key hs hx).mp h1, (Date.le_key hx he).mp h2⟩
        have hb := rangesAuxD_bounds he _ s hs w hwmem
        exact ⟨w, hwmem, (Date.le_key hb.1 hx).mpr hw1, (Date.le_key hx hb.2.1).mpr hw2⟩
      · rintro ⟨w, hwmem, hw1, hw2⟩
        have hb := rangesAuxD_bounds he _ s hs w hwmem
        obtain ⟨hv1, hv2, hks, hk12, hk2e⟩ := hb
        have h1 := (Date.le_key hv1 hx).mp hw1
        have h2 := (Date.le_key hx hv2).mp hw2
        constructor
        · rw [Date.le_key hs hx]; omega
        · rw [Date.le_key hx he]; omega
  · intro hlt
    have hnle : ¬ Date.le s e := by
      rw [Date.le_key hs he]
      rw [Date.lt_key he hs] at hlt
      omega
    simp only [monthlyWindows]
    exact rangesAuxD_neg _ hnle

/-- Witness for C3 at `start_date = 2024-01-01`, `end_date = 2024-03-15`. -/
theorem generate_monthly_ranges_spec_witness :
    (Date.mk 2024 1 1).Valid ∧ (Date.mk 2024 3 15).Valid ∧
      (generate_monthly_ranges ⟨2024, 1, 1⟩ ⟨2024, 3, 15⟩ =
          (monthlyWindows ⟨2024, 1, 1⟩ ⟨2024, 3, 15⟩).map
            (fun w => { start := fmtDMY w.1, ending := fmtDMY w.2, label := fmtYM w.1 })
        ∧ (Date.le ⟨2024, 1, 1⟩ ⟨2024, 3, 15⟩ →
            (∀ w ∈ monthlyWindows ⟨2024, 1, 1⟩ ⟨2024, 3, 15⟩,
              Date.le w.1 w.2 ∧ Date.le w.2 ⟨2024, 3, 15⟩)
            ∧ List.Chain' (fun p q : Date × Date => q.1 = p.2.next)
                (monthlyWindows ⟨2024, 1, 1⟩ ⟨2024, 3, 15⟩)
            ∧ (∀ x : Date, x.Valid →
                ((Date.le ⟨2024, 1, 1⟩ x ∧ Date.le x ⟨2024, 3, 15⟩) ↔
                  ∃ w ∈ monthlyWindows ⟨2024, 1, 1⟩ ⟨2024, 3, 15⟩,
                    Date.le w.1 x ∧ Date.le x w.2)))
        ∧ (Date.lt ⟨2024, 3, 15⟩ ⟨2024, 1, 1⟩ →
            monthlyWindows ⟨2024, 1, 1⟩ ⟨2024, 3, 15⟩ = [])) :=
  ⟨by decide, by decide,
    generate_monthly_ranges_spec ⟨2024, 1, 1⟩ ⟨2024, 3, 15⟩ (by decide) (by decide)⟩

/-- C7: on `start_date = 2024-01-01` and `end_date = 2024-03-15` the
generator yields exactly the three ranges `2024-01` (01-01-2024 to
31-01-2024), `2024-02` (01-02-2024 to 29-02-2024, honouring the 2024 leap
year) and `2024-03` (01-03-2024 to 15-03-2024). -/
theorem generate_monthly_ranges_q1_2024 :
    generate_monthly_ranges ⟨2024, 1, 1⟩ ⟨2024, 3, 15⟩ =
      [{ start := "01-01-2024", ending := "31-01-2024", label := "2024-01" },
       { start := "01-02-2024", ending := "29-02-2024", label := "2024-02" },
       { start := "01-03-2024", ending := "15-03-2024", label := "2024-03" }] := by
  rfl

/-! ## The HTTP layer

Python exceptions relevant to the scraper's control flow.  `fetch` is
decorated with tenacity's
`@retry(stop=stop_after_attempt(3), wait=wait_exponential(min=2, max=10))`;
tenacity retries the body on any exception and, because `reraise` is left
at its default `False`, raises `tenacity.RetryError` once the third
attempt has failed.  `RetryError` is not a
`requests.exceptions.RequestException`, which is what every caller's
`except` clause names. -/
inductive PyErr where
  /-- `requests.exceptions.RequestException` (transport failures and the
  `HTTPError` from `raise_for_status()`). -/
  | requestException
  /-- `ValueError` (in particular the JSON decode error of `resp.json()`). -/
  | valueError
  /-- `tenacity.RetryError`, raised by the `fetch` decorator after its
  third failed attempt. -/
  | retryError
  deriving DecidableEq, Repr

/-- One attempt of the body of `fetch`: `session.get`/`session.post`
followed by `r.raise_for_status()`.  `.error ()` means the attempt raised
a `requests.exceptions.RequestException` (network failure or non-2xx
status); `.ok r` is the returned response.  The environment supplies the
outcome of the i-th attempt. -/
def Attempts (α : Type) : Type := Nat → Except Unit α

/-- `fetch(session, url, method, **kwargs)` under the tenacity retry
decorator: up to 3 attempts; the first success is returned; if all three
attempts raise, tenacity raises `RetryError` (the default `reraise=False`
wraps rather than re-raises). -/
def fetch {α : Type} (attempts : Attempts α) : Except PyErr α :=
  match attempts 0 with
  | .ok r => .ok r
  | .error _ =>
    match attempts 1 with
    | .ok r => .ok r
    | .error _ =>
      match attempts 2 with
      | .ok r => .ok r
      | .error _ => .error .retryError

/-- An HTTP response as the scraper reads it: the final URL (after
redirects) and the body text. -/
structure Response where
  url : String
  text : String
  deriving DecidableEq, Repr

/-- The parsed view `BeautifulSoup(text, "lxml")` offers to
`get_csrf_token`: the `(name, content)` attribute pairs of the document's
`meta` tags, in document order.  Parsing itself is the external library;
the environment supplies this view. -/
structure Soup where
  metaTags : List (String × String)
  deriving Repr

/-- `get_csrf_token(soup)`: the `content` attribute of the first
`meta` tag whose `name` attribute is `"csrf-token"`, or `None`. -/
def get_csrf_token (soup : Soup) : Option String :=
  (soup.metaTags.find? (fun t => t.1 == "csrf-token")).map (fun t => t.2)

/-- Python's substring test `needle in hay` on the underlying character
lists. -/
def listContainsSub (needle : List Char) : List Char → Bool
  | [] => needle.isEmpty
  | c :: cs => needle.isPrefixOf (c :: cs) || listContainsSub needle cs

/-- Python `needle in hay` for strings. -/
def strContains (hay needle : String) : Bool := listContainsSub needle.data hay.data

/-- The environment of one `login` call: outcomes of the attempts of the
GET fetch and of the POST fetch, and the external HTML parser. -/
structure LoginEnv where
  getAttempts : Attempts Response
  postAttempts : Attempts Response
  parse : String → Soup

/-- The body of `login`'s `try` block: GET the login page, extract the
CSRF token (returning `False` when absent), POST the credentials, and
report failure when the final URL still contains `"site/login"` or the body
still contains `"login-form"`. -/
def loginBody (env : LoginEnv) : Except PyErr Bool := do
  let respGet ← fetch env.getAttempts
  match get_csrf_token (env.parse respGet.text) with
  | none => pure false
  | some _ => do
    let respPost ← fetch env.postAttempts
    pure (!(strContains respPost.url "site/login" || strContains respPost.text "login-form"))

/-- `login(session, config)`: the `try` body guarded by
`except requests.exceptions.RequestException`, which converts that
exception (and only that exception) into a logged `False`. -/
def login (env : LoginEnv) : Except PyErr Bool :=
  match loginBody env with
  | .error .requestException => .ok false
  | r => r

/-- The environment of one `request_report_generation` call: outcomes of
the GET fetch (report page) and of the POST fetch (the generation
request), plus the external HTML parser. -/
structure ReqEnv where
  getAttempts : Attempts Response
  postAttempts : Attempts Response
  parse : String → Soup

/-- `request_report_generation(session, config, date_range)`: GET the
report page, extract the CSRF token (`False` when absent), POST the form
encoding the date range, return `True`; the
`except requests.exceptions.RequestException` clause converts that
exception into a logged `False`. -/
def request_report_generation (env : ReqEnv) (_dateRange : DateRange) : Except PyErr Bool :=
  match (do
    let respGet ← fetch env.getAttempts
    match get_csrf_token (env.parse respGet.text) with
    | none => pure false
    | some _ => do
      let _ ← fetch env.postAttempts
      pure true : Except PyErr Bool) with
  | .error .requestException => .ok false
  | r => r

/-! ## The queue poller -/

/-- One element of the `"data"` list of the queue JSON: a list of HTML
fragment strings (`parts`, joined with `" "` into `item_html_str`),
together with the `href` attributes of the `a` elements BeautifulSoup
finds in the joined fragment (`hrefs`, in document order) — the view
`soup.find("a", href=...)` consumes.  HTML parsing itself is the
external library; the environment supplies the parsed `hrefs`. -/
structure Item where
  parts : List String
  hrefs : List String
  deriving DecidableEq, Repr

/-- `item_html_str = " ".join(item)`. -/
def itemText (it : Item) : String := String.intercalate " " it.parts

/-- The literal part of the regex `/site/download-queue\?id=(\d+)`. -/
def linkPat : List Char := "/site/download-queue?id=".data

/-- Does a digit follow?  (`\d` must match at least one character.) -/
def headIsDigit : List Char → Bool
  | [] => false
  | c :: _ => c.isDigit

/-- `re.compile(r"/site/download-queue\?id=(\d+)").search(h)` succeeds:
some position of `h` starts with the literal pattern followed by a
digit. -/
def hasLinkPat : List Char → Bool
  | [] => false
  | c :: cs =>
    (linkPat.isPrefixOf (c :: cs) && headIsDigit ((c :: cs).drop linkPat.length)) ||
      hasLinkPat cs

/-- `soup.find("a", href=re.compile(r"/site/download-queue\?id=(\d+)"))`:
the first `a`-tag href the regex matches, if any. -/
def findDownloadHref (hrefs : List String) : Option String :=
  hrefs.find? (fun h => hasLinkPat h.data)

/-- `re.search(r"id=(\d+)", h)` and `.group(1)`: at the first position
where `"id="` is followed by at least one digit, the maximal digit run
after the `"id="`. -/
def searchId : List Char → Option String
  | [] => none
  | c :: cs =>
    if "id=".data.isPrefixOf (c :: cs) && headIsDigit ((c :: cs).drop 3) then
      some (String.mk (((c :: cs).drop 3).takeWhile Char.isDigit))
    else searchId cs

/-- Characters of `base` up to the end of `scheme://`, plus the rest. -/
def splitScheme : List Char → Option (List Char × List Char)
  | [] => none
  | ':' :: '/' :: '/' :: rest => some ([], rest)
  | c :: cs => (splitScheme cs).map (fun p => (c :: p.1, p.2))

/-- `scheme://authority` of a base URL. -/
def schemeHost (base : String) : String :=
  match splitScheme base.data with
  | none => ""
  | some (sch, rest) =>
    String.mk (sch ++ [':', '/', '/'] ++ rest.takeWhile (fun c => c != '/'))

/-- `urllib.parse.urljoin(base, href)`, modelled for the reference forms
this scraper produces: an absolute-path reference (starting with `"/"`)
replaces the base URL's path; any other href is returned unchanged
(never exercised — every href here starts with `"/site/"`). -/
def urljoin (base href : String) : String :=
  match href.data with
  | '/' :: _ => schemeHost base ++ href
  | _ => href

/-- The `for item in queue_data.get("data", [])` loop of
`poll_report_queue`: find the download link (skip the item if absent),
extract the queue id (skip if absent), skip ids already in
`processed_ids`, return the resolved download URL immediately on a
`Completed` item whose text contains the label, and record the ids of
`Completed` items that do not match.  Returns the early-return value (if
any) together with the final `processed_ids`. -/
def scanItems (base label : String) : List Item → List String → Option String × List String
  | [], s => (none, s)
  | it :: rest, s =>
    match findDownloadHref it.hrefs with
    | none => scanItems base label rest s
    | some href =>
      match searchId href.data with
      | none => scanItems base label rest s
      | some queue_id =>
        if s.contains queue_id then scanItems base label rest s
        else if strContains (itemText it) "Completed" && strContains (itemText it) label then
          (some (urljoin base href), s)
        else if strContains (itemText it) "Completed" then
          scanItems base label rest (s.insert queue_id)
        else scanItems base label rest s

/-- The environment of one iteration of the polling while-loop: the
attempts of its `fetch` of the queue URL, and `resp.json()` on the
response (`.error ()` for a JSON decode `ValueError`; `.ok` gives the
`"data"` items). -/
structure TickEnv where
  attempts : Attempts Response
  json : Response → Except Unit (List Item)

/-- The `try` body of one loop iteration of `poll_report_queue`. -/
def pollTick (base label : String) (t : TickEnv) (s : List String) :
    Except PyErr (Option String × List String) := do
  let resp ← fetch t.attempts
  match t.json resp with
  | .error _ => .error .valueError
  | .ok items => pure (scanItems base label items s)

/-- The `while time.time() < timeout` loop of `poll_report_queue`,
one list element per iteration the deadline admits (the deadline expires
when the list is exhausted, and the loop then returns `None`).  The
`except (requests.exceptions.RequestException, ValueError)` clause logs
those two exceptions and continues polling; any other exception —
in particular the `RetryError` from an exhausted `fetch` — escapes. -/
def pollAux (base label : String) : List TickEnv → List String → Except PyErr (Option String)
  | [], _ => .ok none
  | t :: ts, s =>
    match pollTick base label t s with
    | .ok (some url, _) => .ok (some url)
    | .ok (none, s') => pollAux base label ts s'
    | .error .requestException => pollAux base label ts s
    | .error .valueError => pollAux base label ts s
    | .error e => .error e

/-- The polling environment: the base URL (`config["urls"]["login"]`,
against which the queue URL and the download hrefs resolve) and the
iterations the configured deadline admits. -/
structure PollEnv where
  base : String
  ticks : List TickEnv

/-- `poll_report_queue(session, config, date_range_label)`: run the
polling loop starting from an empty `processed_ids` set. -/
def poll_report_queue (env : PollEnv) (label : String) : Except PyErr (Option String) :=
  pollAux env.base label env.ticks []

/-! ## The downloader -/

/-- The filesystem as `download_file` touches it: the set of directories
that exist and the files written (path with byte count). -/
structure FS where
  dirs : List String
  files : List (String × Nat)
  deriving DecidableEq, Repr

/-- The response of the download fetch: the `content-disposition` header
(if any) and the sizes of the chunks `iter_content(chunk_size=8192)`
yields.  (A `RequestException` raised while streaming is caught by the
surrounding `except` clause and only logged, leaving the partial file in
place, so chunk delivery needs no separate failure marker.) -/
structure DlResponse where
  contentDisposition : Option String
  chunks : List Nat
  deriving DecidableEq, Repr

/-- The literal part of the regex `filename="(.+?)"`. -/
def fnPat : List Char := "filename=\"".data

/-- `re.search('filename="(.+?)"', cd)` and `.group(1)`: at the first
position where `filename="` is followed by a non-empty lazily-matched
run ending at a closing quote, that run. -/
def searchFilename : List Char → Option String
  | [] => none
  | c :: cs =>
    if fnPat.isPrefixOf (c :: cs) then
      let after := (c :: cs).drop fnPat.length
      let cap := after.takeWhile (fun a => a != '"')
      if cap.length > 0 && after.contains '"' then some (String.mk cap)
      else searchFilename cs
    else searchFilename cs

/-- `url.split("=")[-1] + ".xlsx"`, the filename fallback. -/
def fallbackName (url : String) : String :=
  (url.splitOn "=").getLastD url ++ ".xlsx"

/-- The environment of one `download_file` call: the attempts of its
streaming fetch. -/
structure DlEnv where
  attempts : Attempts DlResponse

/-- `download_file(session, url, output_dir)`:
`os.makedirs(output_dir, exist_ok=True)` runs first, before the `try`
block and hence before any network activity; then the file is streamed
to `output_dir/<name>` where the name prefers the `content-disposition`
filename and falls back to the URL's trailing `=`-suffix plus `.xlsx`.
The `except requests.exceptions.RequestException` clause only logs; the
`RetryError` of an exhausted `fetch` is not that exception and
escapes. -/
def download_file (env : DlEnv) (url outputDir : String) (fs : FS) :
    FS × Except PyErr Unit :=
  let fs1 : FS := { fs with dirs := fs.dirs.insert outputDir }
  match fetch env.attempts with
  | .error e => (fs1, .error e)
  | .ok r =>
    let fname :=
      match r.contentDisposition with
      | some cd =>
        match searchFilename cd.data with
        | some f => f
        | none => fallbackName url
      | none => fallbackName url
    let path := outputDir ++ "/" ++ fname
    ({ fs1 with files := (path, r.chunks.sum) :: fs1.files }, .ok ())

/-! ## The orchestrator -/

/-- The configuration dictionary `yaml.safe_load` produces, with the keys
`run_scraper` and its callees read.  `start_date`/`end_date` carry the
already-`strptime`-parsed dates of `scraping_parameters`. -/
structure Config where
  user_agent : Option String
  urls_login : String
  urls_report : String
  username : String
  password : String
  start_date : Date
  end_date : Date
  output_directory : String
  rate_limit_seconds : Option Nat

/-- The per-date-range slice of the environment: the report-generation
request, the polling iterations, and the download fetch. -/
structure RangeEnv where
  reqGen : ReqEnv
  ticks : List TickEnv
  dl : DlEnv

/-- The environment of one `run_scraper` call: the configuration file
(`none` models `FileNotFoundError`), the login environment, one
`RangeEnv` per date-range index, and the initial filesystem. -/
structure RunEnv where
  configFile : Option Config
  loginEnv : LoginEnv
  ranges : Nat → RangeEnv
  fs0 : FS

/-- How a `run_scraper` call ended. -/
inductive RunExit where
  /-- `FileNotFoundError`: logged, run aborted before any request. -/
  | configMissing
  /-- `login` returned `False`: logged, run aborted. -/
  | loginFailed
  /-- The range loop ran to completion. -/
  | finished
  /-- An uncaught exception propagated out of the range loop (or out of
  `login`), killing the run. -/
  | crashed (e : PyErr)
  deriving DecidableEq, Repr

/-- The observable outcome of `run_scraper`: the User-Agent header set on
the session (`none` if never set), the labels of the ranges whose loop
iteration completed, the final filesystem, and how the run ended. -/
structure RunResult where
  userAgent : Option String
  handled : List String
  fs : FS
  exit : RunExit
  deriving DecidableEq, Repr

/-- The `for date_range in date_ranges` loop of `run_scraper`: request
generation; only if that returned `True`, poll; only if a URL was found,
download.  There is no `try` around the body, so any exception escaping
a callee (the `RetryError` of an exhausted `fetch`) aborts the loop. -/
def runRanges (env : RunEnv) (cfg : Config) :
    List DateRange → Nat → FS → List String → List String × FS × Option PyErr
  | [], _, fs, acc => (acc.reverse, fs, none)
  | r :: rs, i, fs, acc =>
    let re := env.ranges i
    match request_report_generation re.reqGen r with
    | .error e => (acc.reverse, fs, some e)
    | .ok ok =>
      if ok then
        match poll_report_queue ⟨cfg.urls_login, re.ticks⟩ r.label with
        | .error e => (acc.reverse, fs, some e)
        | .ok none => runRanges env cfg rs (i + 1) fs (r.label :: acc)
        | .ok (some url) =>
          match download_file re.dl url cfg.output_directory fs with
          | (fs', .error e) => (acc.reverse, fs', some e)
          | (fs', .ok _) => runRanges env cfg rs (i + 1) fs' (r.label :: acc)
      else runRanges env cfg rs (i + 1) fs (r.label :: acc)

/-- `run_scraper(config_path)`: load the configuration (abort on
`FileNotFoundError`), set the session's User-Agent header (defaulting to
`"ESB-Scraper/1.0"`), log in once (abort on `False`), then run the range
loop with inter-request pacing. -/
def run_scraper (env : RunEnv) : RunResult :=
  match env.configFile with
  | none => { userAgent := none, handled := [], fs := env.fs0, exit := .configMissing }
  | some cfg =>
    let ua := cfg.user_agent.getD "ESB-Scraper/1.0"
    match login env.loginEnv with
    | .error e => { userAgent := some ua, handled := [], fs := env.fs0, exit := .crashed e }
    | .ok false => { userAgent := some ua, handled := [], fs := env.fs0, exit := .loginFailed }
    | .ok true =>
      match runRanges env cfg (generate_monthly_ranges cfg.start_date cfg.end_date)
          0 env.fs0 [] with
      | (hs, fs, none) => { userAgent := some ua, handled := hs, fs := fs, exit := .finished }
      | (hs, fs, some e) => { userAgent := some ua, handled := hs, fs := fs, exit := .crashed e }

/-! ## Claim theorems: error propagation and the orchestrator -/

/-- C2 (the code contradicts the claim): when every attempt of the login
page GET raises a `requests.exceptions.RequestException` (for example a
server that answers 500 three times), `fetch` exhausts its 3 attempts
and raises `tenacity.RetryError`; `login`'s
`except requests.exceptions.RequestException` clause does not match it,
so the exception escapes `login` instead of being logged and turned into
`False`. -/
theorem login_retryError_escapes :
    login { getAttempts := fun _ => .error (), postAttempts := fun _ => .error (),
            parse := fun _ => ⟨[]⟩ } = .error .retryError := rfl

/-- C9: `download_file` creates the output directory before any network
activity, so the directory exists in the resulting filesystem whatever
the download's outcome (success, caught stream failure, or escaping
`RetryError`). -/
theorem download_file_creates_output_dir (env : DlEnv) (url outputDir : String) (fs : FS) :
    outputDir ∈ (download_file env url outputDir fs).1.dirs := by
  unfold download_file
  cases fetch env.attempts <;> exact List.mem_insert_self _ _

/-- C10: when the configuration lacks the `user_agent` key,
`config.get("user_agent", "ESB-Scraper/1.0")` supplies the default: the
run proceeds past the header assignment (it does not abort for the
missing key) and the session's User-Agent is `"ESB-Scraper/1.0"`. -/
theorem run_scraper_default_user_agent (env : RunEnv) (cfg : Config)
    (h1 : env.configFile = some cfg) (h2 : cfg.user_agent = none) :
    (run_scraper env).userAgent = some "ESB-Scraper/1.0" ∧
      (run_scraper env).exit ≠ RunExit.configMissing := by
  unfold run_scraper
  rw [h1]
  rcases login env.loginEnv with e | b
  · simp [h2]
  · rcases b with _ | _
    · simp [h2]
    · rcases hr : runRanges env cfg (generate_monthly_ranges cfg.start_date cfg.end_date)
          0 env.fs0 [] with ⟨hs, fs, oe⟩
      rcases oe with _ | e <;> simp [h2, hr]

/-- A concrete two-month configuration (2024-01-01 to 2024-02-15) for the
C1 refutation. -/
def c1Cfg : Config :=
  { user_agent := none
    urls_login := "https://esb.example/site/login"
    urls_report := "https://esb.example/report"
    username := "u"
    password := "p"
    start_date := ⟨2024, 1, 1⟩
    end_date := ⟨2024, 2, 15⟩
    output_directory := "out"
    rate_limit_seconds := none }

/-- A concrete run environment for the C1 refutation: login succeeds, and
every attempt of the first range's report-page GET raises a
`requests.exceptions.RequestException`. -/
def c1Env : RunEnv :=
  { configFile := some c1Cfg
    loginEnv :=
      { getAttempts := fun _ => .ok ⟨"https://esb.example/site/login", "page"⟩
        postAttempts := fun _ => .ok ⟨"https://esb.example/home", "welcome"⟩
        parse := fun _ => ⟨[("csrf-token", "tok")]⟩ }
    ranges := fun _ =>
      { reqGen :=
          { getAttempts := fun _ => .error ()
            postAttempts := fun _ => .error ()
            parse := fun _ => ⟨[]⟩ }
        ticks := []
        dl := ⟨fun _ => .error ()⟩ }
    fs0 := ⟨[], []⟩ }

/-- C1 (the code contradicts the claim): with two date ranges and a first
range whose report-page GET fails on all 3 fetch attempts, the
`tenacity.RetryError` raised by `fetch` is not caught by
`request_report_generation`'s `except requests.exceptions.RequestException`
clause and aborts the whole run: no range is completed (the second range
is never reached), instead of the failure being logged and the loop
proceeding. -/
theorem run_scraper_crashes_on_range_failure :
    (generate_monthly_ranges c1Cfg.start_date c1Cfg.end_date).map DateRange.label =
      ["2024-01", "2024-02"]
    ∧ run_scraper c1Env =
        { userAgent := some "ESB-Scraper/1.0", handled := [], fs := ⟨[], []⟩,
          exit := .crashed .retryError } :=
  ⟨rfl, rfl⟩

/-- A concrete configuration without the `user_agent` key, for the C10
witness. -/
def c10Cfg : Config :=
  { user_agent := none
    urls_login := ""
    urls_report := ""
    username := ""
    password := ""
    start_date := ⟨2024, 1, 1⟩
    end_date := ⟨2024, 1, 2⟩
    output_directory := ""
    rate_limit_seconds := none }

/-- A concrete run environment for the C10 witness. -/
def c10Env : RunEnv :=
  { configFile := some c10Cfg
    loginEnv := ⟨fun _ => .error (), fun _ => .error (), fun _ => ⟨[]⟩⟩
    ranges := fun _ =>
      ⟨⟨fun _ => .error (), fun _ => .error (), fun _ => ⟨[]⟩⟩, [], ⟨fun _ => .error ()⟩⟩
    fs0 := ⟨[], []⟩ }

/-- Witness for C10 at a concrete configuration lacking `user_agent`. -/
theorem run_scraper_default_user_agent_witness :
    c10Env.configFile = some c10Cfg ∧ c10Cfg.user_agent = none ∧
      ((run_scraper c10Env).userAgent = some "ESB-Scraper/1.0" ∧
        (run_scraper c10Env).exit ≠ RunExit.configMissing) :=
  ⟨rfl, rfl, run_scraper_default_user_agent c10Env c10Cfg rfl rfl⟩

/-! ## Claim theorems: the queue poller -/

/-- A download href of the canonical form the portal emits:
`/site/download-queue?id=<digits>` with a non-empty digit id. -/
def IsCanonicalHref (h ds : String) : Prop :=
  h = String.mk (linkPat ++ ds.data) ∧ ds.data ≠ [] ∧ ∀ c ∈ ds.data, c.isDigit

instance (h ds : String) : Decidable (IsCanonicalHref h ds) := by
  unfold IsCanonicalHref; exact inferInstance

lemma isPrefixOf_append_self (l r : List Char) : l.isPrefixOf (l ++ r) = true := by
  induction l with
  | nil => simp [List.isPrefixOf]
  | cons c cs ih => simp [List.isPrefixOf, ih]

lemma hasLinkPat_of_prefix {l : List Char}
    (h : (linkPat.isPrefixOf l && headIsDigit (l.drop linkPat.length)) = true) :
    hasLinkPat l = true := by
  cases l with
  | nil => simp [linkPat, List.isPrefixOf] at h
  | cons c cs => simp [hasLinkPat, h]

lemma hasLinkPat_canonical {ds : String} (h1 : ds.data ≠ [])
    (h2 : ∀ c ∈ ds.data, c.isDigit) :
    hasLinkPat (linkPat ++ ds.data) = true := by
  apply hasLinkPat_of_prefix
  rw [isPrefixOf_append_self, List.drop_left]
  cases hds : ds.data with
  | nil => exact absurd hds h1
  | cons c cs =>
    simp only [headIsDigit, Bool.true_and]
    exact h2 c (by rw [hds]; exact List.mem_cons_self c cs)

lemma searchId_cons_ne {c : Char} (cs : List Char) (h : c ≠ 'i') :
    searchId (c :: cs) = searchId cs := by
  have hne : (('i' : Char) == c) = false := by
    simp [Ne.symm h]
  simp [searchId, List.isPrefixOf, hne]

lemma searchId_cons_i {c2 : Char} (cs : List Char) (h : c2 ≠ 'd') :
    searchId ('i' :: c2 :: cs) = searchId (c2 :: cs) := by
  have hne : (('d' : Char) == c2) = false := by
    simp [Ne.symm h]
  simp [searchId, List.isPrefixOf, hne]

lemma searchId_at_digits {ds : String} (h1 : ds.data ≠ [])
    (h2 : ∀ c ∈ ds.data, c.isDigit) :
    searchId ('i' :: 'd' :: '=' :: ds.data) = some ds := by
  cases hds : ds.data with
  | nil => exact absurd hds h1
  | cons c cs =>
    have hdig : c.isDigit = true := h2 c (by rw [hds]; exact List.mem_cons_self c cs)
    have htw : (c :: cs).takeWhile Char.isDigit = c :: cs := by
      apply List.takeWhile_eq_self_iff.mpr
      intro a ha
      exact h2 a (by rw [hds]; exact ha)
    simp only [searchId, List.isPrefixOf, List.drop, headIsDigit, hdig,
      beq_self_eq_true, Bool.true_and, Bool.and_true, if_pos, htw]
    rw [← hds]

lemma searchId_canonical {h ds : String} (hc : IsCanonicalHref h ds) :
    searchId h.data = some ds := by
  obtain ⟨rfl, h1, h2⟩ := hc
  show searchId (linkPat ++ ds.data) = some ds
  have hstep : linkPat ++ ds.data =
      '/' :: 's' :: 'i' :: 't' :: 'e' :: '/' :: 'd' :: 'o' :: 'w' :: 'n' :: 'l' :: 'o' ::
        'a' :: 'd' :: '-' :: 'q' :: 'u' :: 'e' :: 'u' :: 'e' :: '?' :: 'i' :: 'd' :: '=' ::
        ds.data := rfl
  rw [hstep]
  rw [searchId_cons_ne _ (show ('/' : Char) ≠ 'i' by decide)]
  rw [searchId_cons_ne _ (show ('s' : Char) ≠ 'i' by decide)]
  rw [searchId_cons_i _ (show ('t' : Char) ≠ 'd' by decide)]
  rw [searchId_cons_ne _ (show ('t' : Char) ≠ 'i' by decide)]
  rw [searchId_cons_ne _ (show ('e' : Char) ≠ 'i' by decide)]
  rw [searchId_cons_ne _ (show ('/' : Char) ≠ 'i' by decide)]
  rw [searchId_cons_ne _ (show ('d' : Char) ≠ 'i' by decide)]
  rw [searchId_cons_ne _ (show ('o' : Char) ≠ 'i' by decide)]
  rw [searchId_cons_ne _ (show ('w' : Char) ≠ 'i' by decide)]
  rw [searchId_cons_ne _ (show ('n' : Char) ≠ 'i' by decide)]
  rw [searchId_cons_ne _ (show ('l' : Char) ≠ 'i' by decide)]
  rw [searchId_cons_ne _ (show ('o' : Char) ≠ 'i' by decide)]
  rw [searchId_cons_ne _ (show ('a' : Char) ≠ 'i' by decide)]
  rw [searchId_cons_ne _ (show ('d' : Char) ≠ 'i' by decide)]
  rw [searchId_cons_ne _ (show ('-' : Char) ≠ 'i' by decide)]
  rw [searchId_cons_ne _ (show ('q' : Char) ≠ 'i' by decide)]
  rw [searchId_cons_ne _ (show ('u' : Char) ≠ 'i' by decide)]
  rw [searchId_cons_ne _ (show ('e' : Char) ≠ 'i' by decide)]
  rw [searchId_cons_ne _ (show ('u' : Char) ≠ 'i' by decide)]
  rw [searchId_cons_ne _ (show ('e' : Char) ≠ 'i' by decide)]
  rw [searchId_cons_ne _ (show ('?' : Char) ≠ 'i' by decide)]
  exact searchId_at_digits h1 h2

lemma urljoin_canonical (base : String) {h ds : String} (hc : IsCanonicalHref h ds) :
    urljoin base h = schemeHost base ++ h := by
  obtain ⟨rfl, -, -⟩ := hc
  rfl

lemma canonical_url_inj (base : String) {h1 h2 ds1 ds2 : String}
    (hc1 : IsCanonicalHref h1 ds1) (hc2 : IsCanonicalHref h2 ds2)
    (hne : ds1 ≠ ds2) : urljoin base h1 ≠ urljoin base h2 := by
  intro heq
  rw [urljoin_canonical base hc1, urljoin_canonical base hc2] at heq
  obtain ⟨rfl, -, -⟩ := hc1
  obtain ⟨rfl, -, -⟩ := hc2
  apply hne
  have hdata := congrArg String.data heq
  simp only [String.data_append] at hdata
  have h3 := List.append_cancel_left hdata
  have h4 := List.append_cancel_left h3
  cases ds1
  cases ds2
  exact congrArg String.mk h4

lemma contains_true_iff (s : List String) (a : String) : s.contains a = true ↔ a ∈ s :=
  ⟨fun h => List.elem_iff.mp h, fun h => List.elem_iff.mpr h⟩

lemma contains_false_iff (s : List String) (a : String) : s.contains a = false ↔ a ∉ s := by
  cases h : s.contains a <;> simp_all [List.elem_iff]

lemma findDownloadHref_mem {hrefs : List String} {h : String}
    (hf : findDownloadHref hrefs = some h) : h ∈ hrefs :=
  List.mem_of_find?_eq_some hf

lemma scanItems_cons_none {it : Item} (base label : String) (rest : List Item)
    (s : List String) (h : findDownloadHref it.hrefs = none) :
    scanItems base label (it :: rest) s = scanItems base label rest s := by
  simp [scanItems, h]

lemma scanItems_cons_some {it : Item} {h ds : String} (base label : String)
    (rest : List Item) (s : List String)
    (hf : findDownloadHref it.hrefs = some h) (hc : IsCanonicalHref h ds) :
    scanItems base label (it :: rest) s =
      (if s.contains ds then scanItems base label rest s
       else if strContains (itemText it) "Completed" && strContains (itemText it) label then
         (some (urljoin base h), s)
       else if strContains (itemText it) "Completed" then
         scanItems base label rest (s.insert ds)
       else scanItems base label rest s) := by
  simp only [scanItems, hf, searchId_canonical hc]

/-- Within one tick's scan, `processed_ids` only grows. -/
lemma scanItems_subset (base label : String) :
    ∀ (items : List Item) (s : List String), s ⊆ (scanItems base label items s).2 := by
  intro items
  induction items with
  | nil => intro s; exact fun a ha => ha
  | cons it rest ih =>
    intro s
    simp only [scanItems]
    cases hfd : findDownloadHref it.hrefs with
    | none => simp only [hfd]; exact ih s
    | some href =>
      simp only [hfd]
      cases hsi : searchId href.data with
      | none => simp only [hsi]; exact ih s
      | some qid =>
        simp only [hsi]
        cases hq : s.contains qid with
        | true => simp only [hq, if_true]; exact ih s
        | false =>
          cases hcl : (strContains (itemText it) "Completed" &&
              strContains (itemText it) label) with
          | true => simp [hq, hcl]
          | false =>
            cases hco : strContains (itemText it) "Completed" with
            | true =>
              simp only [hq, hcl, hco, Bool.false_eq_true, if_true, if_false]
              exact fun a ha => ih (s.insert qid) (List.subset_insert qid s ha)
            | false =>
              simp only [hq, hcl, hco, Bool.false_eq_true, if_true, if_false]
              exact ih s

/-- A `Completed` item that does not match the label leaves its id in the
final `processed_ids` of the tick (recorded now, or already present). -/
lemma scanItems_records {it : Item} {h ds : String} (base label : String)
    (rest : List Item) (s : List String)
    (hf : findDownloadHref it.hrefs = some h) (hc : IsCanonicalHref h ds)
    (hcomp : strContains (itemText it) "Completed" = true)
    (hnl : strContains (itemText it) label = false) :
    ds ∈ (scanItems base label (it :: rest) s).2 := by
  rw [scanItems_cons_some base label rest s hf hc]
  cases hq : s.contains ds with
  | true =>
    simp only [hq, if_true]
    exact scanItems_subset base label rest s ((contains_true_iff s ds).mp hq)
  | false =>
    simp only [hq, hcomp, hnl, Bool.and_false, Bool.false_eq_true, if_true, if_false]
    exact scanItems_subset base label rest (s.insert ds) (List.mem_insert_self ds s)

/-- An item whose id is already processed is skipped: it affects neither
the result nor `processed_ids`, even if its text now matches the label. -/
lemma scanItems_skips {it : Item} {h ds : String} (base label : String)
    (rest : List Item) (s : List String)
    (hf : findDownloadHref it.hrefs = some h) (hc : IsCanonicalHref h ds)
    (hmem : ds ∈ s) :
    scanItems base label (it :: rest) s = scanItems base label rest s := by
  rw [scanItems_cons_some base label rest s hf hc]
  simp only [(contains_true_iff s ds).mpr hmem, if_true]

/-- Every download href of the item has the canonical portal form. -/
def ItemCanonical (it : Item) : Prop :=
  ∀ h ∈ it.hrefs, ∃ ds, IsCanonicalHref h ds

/-- Every item any tick can deliver has canonical download hrefs. -/
def CanonTicks (ts : List TickEnv) : Prop :=
  ∀ t ∈ ts, ∀ r items, t.json r = .ok items → ∀ it ∈ items, ItemCanonical it

/-- Once an id is in `processed_ids`, a tick's scan never returns that
id's download URL, and the id survives in `processed_ids`. -/
lemma scanItems_no_processed_url (base label : String) {ds : String}
    (hds1 : ds.data ≠ []) (hds2 : ∀ c ∈ ds.data, c.isDigit) :
    ∀ (items : List Item) (s : List String), ds ∈ s → (∀ it ∈ items, ItemCanonical it) →
      (scanItems base label items s).1 ≠
          some (urljoin base (String.mk (linkPat ++ ds.data)))
        ∧ ds ∈ (scanItems base label items s).2 := by
  intro items
  induction items with
  | nil =>
    intro s hmem _
    exact ⟨by simp [scanItems], hmem⟩
  | cons it rest ih =>
    intro s hmem hcanon
    have hcrest : ∀ i ∈ rest, ItemCanonical i :=
      fun i hi => hcanon i (List.mem_cons_of_mem it hi)
    cases hfd : findDownloadHref it.hrefs with
    | none =>
      rw [scanItems_cons_none base label rest s hfd]
      exact ih s hmem hcrest
    | some href =>
      obtain ⟨ds', hc'⟩ := hcanon it (List.mem_cons_self it rest) href (findDownloadHref_mem hfd)
      rw [scanItems_cons_some base label rest s hfd hc']
      cases hq : s.contains ds' with
      | true =>
        simp only [hq, if_true]
        exact ih s hmem hcrest
      | false =>
        have hne : ds' ≠ ds := by
          intro hEq
          rw [hEq] at hq
          exact absurd hmem ((contains_false_iff s ds).mp hq)
        cases hcl : (strContains (itemText it) "Completed" &&
            strContains (itemText it) label) with
        | true =>
          simp only [hq, hcl, Bool.false_eq_true, if_true, if_false]
          constructor
          · intro hEq
            have hEq' : urljoin base href =
                urljoin base (String.mk (linkPat ++ ds.data)) := Option.some.inj hEq
            exact canonical_url_inj base hc'
              ⟨rfl, hds1, hds2⟩ hne hEq'
          · exact hmem
        | false =>
          cases hco : strContains (itemText it) "Completed" with
          | true =>
            simp only [hq, hcl, hco, Bool.false_eq_true, if_true, if_false]
            exact ih (s.insert ds') (List.subset_insert ds' s hmem) hcrest
          | false =>
            simp only [hq, hcl, hco, Bool.false_eq_true, if_true, if_false]
            exact ih s hmem hcrest

lemma except_bind_ok {e α β : Type} (a : α) (f : α → Except e β) :
    ((Except.ok a : Except e α) >>= f) = f a := rfl

lemma except_bind_error {e α β : Type} (x : e) (f : α → Except e β) :
    ((Except.error x : Except e α) >>= f) = Except.error x := rfl

/-- Across the whole remaining poll session, an id in `processed_ids` can
never be returned as a match. -/
lemma pollAux_no_processed_url (base label : String) {ds : String}
    (hds1 : ds.data ≠ []) (hds2 : ∀ c ∈ ds.data, c.isDigit) :
    ∀ (ts : List TickEnv) (s : List String), ds ∈ s → CanonTicks ts →
      pollAux base label ts s ≠
        .ok (some (urljoin base (String.mk (linkPat ++ ds.data)))) := by
  intro ts
  induction ts with
  | nil =>
    intro s _ _ hEq
    simp [pollAux] at hEq
  | cons t ts ih =>
    intro s hmem hcanon
    have hcrest : CanonTicks ts := fun t' ht' => hcanon t' (List.mem_cons_of_mem t ht')
    simp only [pollAux]
    cases hfr : fetch t.attempts with
    | error e =>
      have hpt : pollTick base label t s = .error e := by
        simp [pollTick, hfr, except_bind_error]
      rw [hpt]
      cases e with
      | requestException => exact ih s hmem hcrest
      | valueError => exact ih s hmem hcrest
      | retryError => intro hEq; exact Except.noConfusion hEq
    | ok r =>
      cases hj : t.json r with
      | error u =>
        have hpt : pollTick base label t s = .error .valueError := by
          simp [pollTick, hfr, hj, except_bind_ok]
        rw [hpt]
        exact ih s hmem hcrest
      | ok items =>
        have hitems : ∀ it ∈ items, ItemCanonical it :=
          hcanon t (List.mem_cons_self t ts) r items hj
        have hscan := scanItems_no_processed_url base label hds1 hds2 items s hmem hitems
        have hpt : pollTick base label t s = .ok (scanItems base label items s) := by
          simp only [pollTick, hfr, hj, except_bind_ok]
          rfl
        rw [hpt]
        cases hsc : scanItems base label items s with
        | mk fst snd =>
          cases fst with
          | none =>
            rw [hsc] at hscan
            exact ih snd hscan.2 hcrest
          | some url =>
            rw [hsc] at hscan
            show Except.ok (some url) ≠
              Except.ok (some (urljoin base (String.mk (linkPat ++ ds.data))))
            intro hEq
            exact hscan.1 (Except.ok.inj hEq)

/-- C4: an item with no download link of the form
`/site/download-queue?id=<N>` among its `a`-tag hrefs is skipped — the
scan continues over the remaining items with the same `processed_ids`
and the same result; an item whose found link is the canonical
`/site/download-queue?id=<ds>` is not skipped: it is evaluated with
exactly the extracted id `ds` (deduplication, the completed-and-matching
return, and the completed-non-matching recording all run on `ds`). -/
theorem scanItems_link_dichotomy (base label : String) (it1 it2 : Item)
    (rest : List Item) (s : List String) (h ds : String)
    (h1 : findDownloadHref it1.hrefs = none)
    (h2 : findDownloadHref it2.hrefs = some h)
    (hc : IsCanonicalHref h ds) :
    scanItems base label (it1 :: rest) s = scanItems base label rest s
    ∧ scanItems base label (it2 :: rest) s =
        (if s.contains ds then scanItems base label rest s
         else if strContains (itemText it2) "Completed" &&
             strContains (itemText it2) label then
           (some (urljoin base h), s)
         else if strContains (itemText it2) "Completed" then
           scanItems base label rest (s.insert ds)
         else scanItems base label rest s) :=
  ⟨scanItems_cons_none base label rest s h1,
   scanItems_cons_some base label rest s h2 hc⟩

/-- C5: within one `poll_report_queue` call, (1) ids in `processed_ids`
persist through any tick's scan; (2) once an item is observed `Completed`
without the target label, its id is in `processed_ids` afterwards;
(3) any later item carrying an id already in `processed_ids` is skipped
outright — same result, same set — even if its text now matches the
label; (4) across all remaining ticks, an id in `processed_ids` can
never be returned as a match: its download URL is never the poll
result. -/
theorem poll_processed_ids_invariant (base label : String)
    (it itLater : Item) (rest items : List Item)
    (s sC : List String) (ts : List TickEnv) (h hL ds : String)
    (hobs : findDownloadHref it.hrefs = some h) (hcan : IsCanonicalHref h ds)
    (hcomp : strContains (itemText it) "Completed" = true)
    (hnl : strContains (itemText it) label = false)
    (hlater : findDownloadHref itLater.hrefs = some hL) (hcanL : IsCanonicalHref hL ds)
    (hmem : ds ∈ sC) (hticks : CanonTicks ts) :
    s ⊆ (scanItems base label items s).2
    ∧ ds ∈ (scanItems base label (it :: rest) s).2
    ∧ scanItems base label (itLater :: rest) sC = scanItems base label rest sC
    ∧ pollAux base label ts sC ≠
        .ok (some (urljoin base (String.mk (linkPat ++ ds.data)))) := by
  refine ⟨scanItems_subset base label items s, ?_, ?_, ?_⟩
  · exact scanItems_records base label rest s hobs hcan hcomp hnl
  · exact scanItems_skips base label rest sC hlater hcanL hmem
  · exact pollAux_no_processed_url base label hcan.2.1 hcan.2.2 ts sC hmem hticks

/-- C6: when the scan, in server-returned order, reaches an unprocessed
item whose text contains both the `Completed` marker and the target
label, it returns that item's resolved absolute download URL immediately,
whatever items follow; in a feed with a matching item A and a completed
item B matching a different label, the poll returns A's URL with B
either after A (B never examined) or before A (B only recorded), and A's
URL differs from B's URL, so B's is never returned. -/
theorem poll_first_match_wins (base label : String) (itA itB : Item)
    (rest : List Item) (s : List String) (resp : Response)
    (hA hB dsA dsB : String)
    (hfA : findDownloadHref itA.hrefs = some hA) (hcA : IsCanonicalHref hA dsA)
    (hfB : findDownloadHref itB.hrefs = some hB) (hcB : IsCanonicalHref hB dsB)
    (hAmem : s.contains dsA = false)
    (hBmem : s.contains dsB = false)
    (hAB : dsA ≠ dsB)
    (hAcomp : strContains (itemText itA) "Completed" = true)
    (hAlabel : strContains (itemText itA) label = true)
    (hBcomp : strContains (itemText itB) "Completed" = true)
    (hBlabel : strContains (itemText itB) label = false) :
    scanItems base label (itA :: rest) s = (some (urljoin base hA), s)
    ∧ scanItems base label [itB, itA] s = (some (urljoin base hA), s.insert dsB)
    ∧ poll_report_queue ⟨base, [⟨fun _ => .ok resp, fun _ => .ok [itB, itA]⟩]⟩ label =
        .ok (some (urljoin base hA))
    ∧ urljoin base hA ≠ urljoin base hB := by
  have hAgen : ∀ s' : List String, s'.contains dsA = false →
      ∀ rest' : List Item,
        scanItems base label (itA :: rest') s' = (some (urljoin base hA), s') := by
    intro s' hs' rest'
    have hs'' : dsA ∉ s' := (contains_false_iff s' dsA).mp hs'
    rw [scanItems_cons_some base label rest' s' hfA hcA]
    simp [hs'', hAcomp, hAlabel]
  have hBAgen : ∀ s' : List String, s'.contains dsA = false →
      s'.contains dsB = false →
      scanItems base label [itB, itA] s' = (some (urljoin base hA), s'.insert dsB) := by
    intro s' hsA hsB
    rw [scanItems_cons_some base label [itA] s' hfB hcB]
    simp only [hsB, hBcomp, hBlabel, Bool.and_false, Bool.false_eq_true, if_true, if_false]
    apply hAgen
    rw [contains_false_iff] at hsA ⊢
    rw [List.mem_insert_iff]
    intro hcase
    rcases hcase with hEq | hmem
    · exact hAB hEq
    · exact hsA hmem
  refine ⟨hAgen s hAmem rest, hBAgen s hAmem hBmem, ?_, ?_⟩
  · have h0A : ([] : List String).contains dsA = false := rfl
    have h0B : ([] : List String).contains dsB = false := rfl
    have hpt : pollTick base label ⟨fun _ => .ok resp, fun _ => .ok [itB, itA]⟩ [] =
        .ok (scanItems base label [itB, itA] []) := rfl
    show pollAux base label [⟨fun _ => .ok resp, fun _ => .ok [itB, itA]⟩] [] =
      Except.ok (some (urljoin base hA))
    simp only [pollAux]
    rw [hpt, hBAgen [] h0A h0B]
  · exact canonical_url_inj base hcA hcB hAB

/-- A queue item without any download link, for the C4 witness. -/
def c4ItemNoLink : Item := ⟨["<td>pending</td>"], []⟩

/-- A completed queue item with the canonical download link id 7, for the
C4 witness. -/
def c4ItemLink : Item :=
  ⟨["<td>Completed Report 2024-01</td>"], ["/site/download-queue?id=7"]⟩

/-- Witness for C4 at a concrete feed. -/
theorem scanItems_link_dichotomy_witness :
    findDownloadHref c4ItemNoLink.hrefs = none
    ∧ findDownloadHref c4ItemLink.hrefs = some "/site/download-queue?id=7"
    ∧ IsCanonicalHref "/site/download-queue?id=7" "7"
    ∧ (scanItems "https://esb.example/site/login" "2024-01" (c4ItemNoLink :: []) [] =
          scanItems "https://esb.example/site/login" "2024-01" [] []
      ∧ scanItems "https://esb.example/site/login" "2024-01" (c4ItemLink :: []) [] =
          (if ([] : List String).contains "7" then
            scanItems "https://esb.example/site/login" "2024-01" [] []
          else if strContains (itemText c4ItemLink) "Completed" &&
              strContains (itemText c4ItemLink) "2024-01" then
            (some (urljoin "https://esb.example/site/login" "/site/download-queue?id=7"),
              ([] : List String))
          else if strContains (itemText c4ItemLink) "Completed" then
            scanItems "https://esb.example/site/login" "2024-01" []
              (([] : List String).insert "7")
          else scanItems "https://esb.example/site/login" "2024-01" [] [])) :=
  ⟨rfl, rfl, by decide,
    scanItems_link_dichotomy "https://esb.example/site/login" "2024-01"
      c4ItemNoLink c4ItemLink [] [] "/site/download-queue?id=7" "7"
      rfl rfl (by decide)⟩

/-- A completed non-matching item (month 2024-02, id 5), for the C5
witness. -/
def c5ItemFeb : Item :=
  ⟨["<td>Completed Report 2024-02</td>"], ["/site/download-queue?id=5"]⟩

/-- The same id reappearing with text that now matches the polled label,
for the C5 witness. -/
def c5ItemReappear : Item :=
  ⟨["<td>Completed Report 2024-01</td>"], ["/site/download-queue?id=5"]⟩

/-- Witness for C5 at a concrete feed. -/
theorem poll_processed_ids_invariant_witness :
    findDownloadHref c5ItemFeb.hrefs = some "/site/download-queue?id=5"
    ∧ IsCanonicalHref "/site/download-queue?id=5" "5"
    ∧ strContains (itemText c5ItemFeb) "Completed" = true
    ∧ strContains (itemText c5ItemFeb) "2024-01" = false
    ∧ findDownloadHref c5ItemReappear.hrefs = some "/site/download-queue?id=5"
    ∧ ("5" : String) ∈ ["5"]
    ∧ CanonTicks []
    ∧ (([] : List String) ⊆
          (scanItems "https://esb.example/site/login" "2024-01" [c5ItemFeb] []).2
      ∧ "5" ∈ (scanItems "https://esb.example/site/login" "2024-01"
          (c5ItemFeb :: []) []).2
      ∧ scanItems "https://esb.example/site/login" "2024-01"
            (c5ItemReappear :: []) ["5"] =
          scanItems "https://esb.example/site/login" "2024-01" [] ["5"]
      ∧ pollAux "https://esb.example/site/login" "2024-01" [] ["5"] ≠
          .ok (some (urljoin "https://esb.example/site/login"
            (String.mk (linkPat ++ ("5" : String).data))))) :=
  ⟨rfl, by decide, by decide, by decide, rfl, by decide,
    fun t ht => absurd ht (List.not_mem_nil t),
    poll_processed_ids_invariant "https://esb.example/site/login" "2024-01"
      c5ItemFeb c5ItemReappear [] [c5ItemFeb] [] ["5"] []
      "/site/download-queue?id=5" "/site/download-queue?id=5" "5"
      rfl (by decide) (by decide) (by decide) rfl (by decide) (by decide)
      (fun t ht => absurd ht (List.not_mem_nil t))⟩

/-- The matching completed item A (label 2024-01, id 11), for the C6
witness. -/
def c6ItemA : Item :=
  ⟨["<td>Completed Report 2024-01</td>"], ["/site/download-queue?id=11"]⟩

/-- The completed item B of another month (label 2024-02, id 22), for the
C6 witness. -/
def c6ItemB : Item :=
  ⟨["<td>Completed Report 2024-02</td>"], ["/site/download-queue?id=22"]⟩

/-- Witness for C6 at a concrete feed. -/
theorem poll_first_match_wins_witness :
    findDownloadHref c6ItemA.hrefs = some "/site/download-queue?id=11"
    ∧ IsCanonicalHref "/site/download-queue?id=11" "11"
    ∧ findDownloadHref c6ItemB.hrefs = some "/site/download-queue?id=22"
    ∧ IsCanonicalHref "/site/download-queue?id=22" "22"
    ∧ ("11" : String) ≠ "22"
    ∧ (scanItems "https://esb.example/site/login" "2024-01" (c6ItemA :: []) [] =
          (some (urljoin "https://esb.example/site/login" "/site/download-queue?id=11"),
            ([] : List String))
      ∧ scanItems "https://esb.example/site/login" "2024-01" [c6ItemB, c6ItemA] [] =
          (some (urljoin "https://esb.example/site/login" "/site/download-queue?id=11"),
            ([] : List String).insert "22")
      ∧ poll_report_queue
            ⟨"https://esb.example/site/login",
              [⟨fun _ => .ok ⟨"https://esb.example/q", "queue"⟩,
                fun _ => .ok [c6ItemB, c6ItemA]⟩]⟩ "2024-01" =
          .ok (some (urljoin "https://esb.example/site/login"
            "/site/download-queue?id=11"))
      ∧ urljoin "https://esb.example/site/login" "/site/download-queue?id=11" ≠
          urljoin "https://esb.example/site/login" "/site/download-queue?id=22") :=
  ⟨rfl, by decide, rfl, by decide, by decide,
    poll_first_match_wins "https://esb.example/site/login" "2024-01"
      c6ItemA c6ItemB [] [] ⟨"https://esb.example/q", "queue"⟩
      "/site/download-queue?id=11" "/site/download-queue?id=22" "11" "22"
      rfl (by decide) rfl (by decide) rfl rfl (by decide)
      (by decide) (by decide) (by decide) (by decide)⟩

/-! ## The list-page extractor (C8)

`parse_list_page` is imported by `src/scraper/tests/test_parser.py`
(`from scrape_esb import parse_list_page`) but no definition exists in
`src/scraper/scrape_esb.py`, the repository's only module; it is
modelled below from the spec. -/

/-- Modelled from the spec: an HTML element as the extractor views it —
its class list, its text, and its children.  The test's HTML document is
written as this tree; parsing markup is the HTML library's job, outside
the extractor modelled here. -/
inductive HtmlElem where
  | mk : List String → String → List HtmlElem → HtmlElem
  deriving Repr

def HtmlElem.classes : HtmlElem → List String
  | .mk c _ _ => c

def HtmlElem.text : HtmlElem → String
  | .mk _ t _ => t

/-- A CSS class selector `.name` matches an element carrying that
class. -/
def matchesClassSel (sel : String) (e : HtmlElem) : Bool :=
  match sel.data with
  | '.' :: rest => e.classes.contains (String.mk rest)
  | _ => false

mutual

/-- All proper descendants of `e` matching `sel`, in document order. -/
def selectSub (sel : String) : HtmlElem → List HtmlElem
  | .mk _ _ ch => selectList sel ch

/-- All elements of the forest (roots included) matching `sel`, in
document order. -/
def selectList (sel : String) : List HtmlElem → List HtmlElem
  | [] => []
  | e :: es =>
    (if matchesClassSel sel e then [e] else []) ++ selectSub sel e ++ selectList sel es

end

/-- One field specification of the extractor configuration (a CSS
selector and an extraction type, `"text"` in the test). -/
structure FieldSpec where
  selector : String
  fieldType : String
  deriving DecidableEq, Repr

/-- The extractor configuration: the row selector and the named field
specifications, in order. -/
structure ParseConfig where
  list_selector : String
  fields : List (String × FieldSpec)

/-- Modelled from the spec: `parse_list_page(html, config)`, "a trivial
selector-driven row extractor" — select the rows with `list_selector`;
for each row extract each configured field as the text of the first
matching descendant (`""` when absent).  Records are name-to-value
association lists in field order. -/
def parse_list_page (doc : HtmlElem) (cfg : ParseConfig) :
    List (List (String × String)) :=
  (selectSub cfg.list_selector doc).map fun row =>
    cfg.fields.map fun f =>
      (f.1, match (selectSub f.2.selector row).head? with
            | some el => el.text
            | none => "")

/-- The HTML document of `test_parse_list_page_basic`: two
`.company-row` elements with name, period and sales spans. -/
def c8Html : HtmlElem :=
  .mk [] "" [.mk [] "" [
    .mk ["company-row"] "" [
      .mk ["company-name"] "ABC Corp" [],
      .mk ["period"] "2024-Q1" [],
      .mk ["sales"] "1,000,000" []],
    .mk ["company-row"] "" [
      .mk ["company-name"] "XYZ Ltd" [],
      .mk ["period"] "2024-Q1" [],
      .mk ["sales"] "500,000" []]]]

/-- The field configuration of `test_parse_list_page_basic`. -/
def c8Config : ParseConfig :=
  { list_selector := ".company-row"
    fields :=
      [("company_name", ⟨".company-name", "text"⟩),
       ("period", ⟨".period", "text"⟩),
       ("sales", ⟨".sales", "text"⟩)] }

/-- C8: on the test document with two `.company-row` elements and the
field configuration selecting `company_name`, `period` and `sales`,
`parse_list_page` returns exactly two records and the `sales` field of
the second record is the literal text `"500,000"` (and, as the test also
asserts, the `company_name` of the first is `"ABC Corp"`). -/
theorem parse_list_page_test :
    (parse_list_page c8Html c8Config).length = 2
    ∧ ((parse_list_page c8Html c8Config).getD 1 []).lookup "sales" = some "500,000"
    ∧ ((parse_list_page c8Html c8Config).getD 0 []).lookup "company_name" =
        some "ABC Corp" :=
  ⟨rfl, rfl, rfl⟩

end ESB
